import Mathlib

/-!
Shallow embedding of the codecrafters-grep pattern-matching engine
(`src/main.rs`): the token data model, the tokenizer `tokenize_pattern`,
the per-character predicate `matches_token`, the backtracking matcher
`backtrack_match` / `match_tokens_at_position`, and the driver
`match_pattern` (anchor stripping, empty-token bypasses, start-offset
enumeration, end-anchor check).

Strings are embedded as `List Char`.  The Rust `while` loops are embedded
as follows: the tokenizer's main loop, which consumes at least one
character per iteration, runs on a fuel argument initialised to the length
of the pattern body; the matcher's recursion is structural on the list of
remaining tokens (the Rust recursion always proceeds to `token_idx + 1`);
the `Plus` run-length loop and the greedy count-down loops become the
structurally recursive helpers `run_from`, `tryFrom1` and `tryFrom0`.
-/

namespace Grep

/-- `enum PatternToken` from `src/main.rs`. -/
inductive PatternToken where
  | Digit : PatternToken
  | Word : PatternToken
  | Char (c : Char) : PatternToken
  | CharGroup (chars : List Char) (is_negative : Bool) : PatternToken
  | Plus (inner : PatternToken) : PatternToken
  | Question (inner : PatternToken) : PatternToken
deriving DecidableEq

/-- The `'\\'` arm of the tokenizer: `d` gives `Digit`, `w` gives `Word`,
any other escaped character gives a literal. -/
def escToken (special : Char) : PatternToken :=
  if special = 'd' then PatternToken.Digit
  else if special = 'w' then PatternToken.Word
  else PatternToken.Char special

/-- The `peek == '^'` step at the start of a bracket class: returns the
negation flag and the characters remaining after it. -/
def groupNeg (cs : List Char) : Bool × List Char :=
  if cs.head? = some '^' then (true, cs.tail) else (false, cs)

/-- The inner class loop: consume characters into the member list until a
`]` is found (which is dropped) or the input ends. Returns the members and
the remaining characters. -/
def readGroup : List Char → List Char × List Char
  | [] => ([], [])
  | gc :: rest =>
    if gc = ']' then ([], rest)
    else
      let p := readGroup rest
      (gc :: p.1, p.2)

/-- The one-character quantifier lookahead performed after each atomic
unit: a following `+` wraps the unit in `Plus`, a following `?` in
`Question`, anything else leaves it unwrapped. -/
def applyQuant (t : PatternToken) (cs : List Char) : PatternToken × List Char :=
  if cs.head? = some '+' then (PatternToken.Plus t, cs.tail)
  else if cs.head? = some '?' then (PatternToken.Question t, cs.tail)
  else (t, cs)

/-- Fuelled form of the tokenizer loop of `tokenize_pattern`.  Each
iteration consumes at least one character, so fuel `cs.length` is always
enough (see `tokT_fuel_irrelevant`). -/
def tokT : Nat → List Char → List PatternToken
  | _, [] => []
  | 0, _ :: _ => []
  | fuel + 1, c :: rest =>
    if c = '\\' then
      match rest with
      | [] => []
      | special :: rest2 =>
        let q := applyQuant (escToken special) rest2
        q.1 :: tokT fuel q.2
    else if c = '[' then
      let gn := groupNeg rest
      let g := readGroup gn.2
      let q := applyQuant (PatternToken.CharGroup g.1 gn.1) g.2
      q.1 :: tokT fuel q.2
    else
      let q := applyQuant (PatternToken.Char c) rest
      q.1 :: tokT fuel q.2

/-- `fn tokenize_pattern` from `src/main.rs`. -/
def tokenize_pattern (pattern : List Char) : List PatternToken :=
  tokT pattern.length pattern

/-- `fn matches_token` from `src/main.rs`. -/
def matches_token (c : Char) : PatternToken → Bool
  | PatternToken.Digit => c.isDigit
  | PatternToken.Word => c.isAlphanum || c = '_'
  | PatternToken.Char pattern_char => c = pattern_char
  | PatternToken.CharGroup chars is_negative =>
    let contains := chars.contains c
    if is_negative then !contains else contains
  | PatternToken.Plus _ => false
  | PatternToken.Question _ => false

/-- The guard `pos < input_chars.len() && matches_token(input_chars[pos], t)`
used throughout `backtrack_match`. -/
def satAt (input_chars : List Char) (pos : Nat) (t : PatternToken) : Bool :=
  match input_chars.get? pos with
  | some c => matches_token c t
  | none => false

/-- Length of the maximal prefix of `cs` whose characters all satisfy
`inner`; used to express the `max_matches` while-loop of the `Plus` arm. -/
def run_from (inner : PatternToken) : List Char → Nat
  | [] => 0
  | c :: rest => if matches_token c inner then run_from inner rest + 1 else 0

/-- The `for num_matches in (1..=max).rev()` loop of the `Plus` arm:
try `f (pos + n)` for `n = max, max - 1, …, 1`, returning the first
success. -/
def tryFrom1 (f : Nat → Option Nat) (pos : Nat) : Nat → Option Nat
  | 0 => none
  | n + 1 =>
    match f (pos + (n + 1)) with
    | some r => some r
    | none => tryFrom1 f pos n

/-- The `for num_matches in (0..=max).rev()` loop of the `Question` arm:
like `tryFrom1` but also tries `n = 0`. -/
def tryFrom0 (f : Nat → Option Nat) (pos : Nat) : Nat → Option Nat
  | 0 => f pos
  | n + 1 =>
    match f (pos + (n + 1)) with
    | some r => some r
    | none => tryFrom0 f pos n

/-- `fn backtrack_match` from `src/main.rs`, with the remaining token list
in place of the `token_idx` index (the Rust recursion always moves to
`token_idx + 1`, i.e. to the tail). -/
def backtrack_match (input_chars : List Char) : List PatternToken → Nat → Option Nat
  | [] => fun pos => some pos
  | t :: rest => fun pos =>
    match t with
    | PatternToken.Plus inner =>
      if satAt input_chars pos inner then
        tryFrom1 (backtrack_match input_chars rest) pos
          (1 + run_from inner (input_chars.drop (pos + 1)))
      else none
    | PatternToken.Question inner =>
      tryFrom0 (backtrack_match input_chars rest) pos
        (if satAt input_chars pos inner then 1 else 0)
    | _ =>
      if satAt input_chars pos t then backtrack_match input_chars rest (pos + 1)
      else none

/-- `fn match_tokens_at_position` from `src/main.rs`. -/
def match_tokens_at_position (input_chars : List Char) (tokens : List PatternToken)
    (start_pos : Nat) : Option Nat :=
  backtrack_match input_chars tokens start_pos

/-- Rust `char::is_whitespace`: the Unicode `White_Space` property. -/
def rust_is_whitespace (c : Char) : Bool :=
  c = '\x09' || c = '\x0a' || c = '\x0b' || c = '\x0c' || c = '\x0d' ||
  c = ' ' || c = '\u0085' || c = '\xa0' || c = '\u1680' || c = '\u2000' ||
  c = '\u2001' || c = '\u2002' || c = '\u2003' || c = '\u2004' ||
  c = '\u2005' || c = '\u2006' || c = '\u2007' || c = '\u2008' ||
  c = '\u2009' || c = '\u200a' || c = '\u2028' || c = '\u2029' ||
  c = '\u202f' || c = '\u205f' || c = '\u3000'

/-- Rust `str::trim_end`: remove all trailing whitespace characters. -/
def trim_end (s : List Char) : List Char :=
  (s.reverse.dropWhile rust_is_whitespace).reverse

/-- `pattern.strip_prefix('^')` step of `match_pattern`: whether the
pattern starts with `^`, and the pattern with that character removed. -/
def strip_caret (pattern : List Char) : Bool × List Char :=
  if pattern.head? = some '^' then (true, pattern.tail) else (false, pattern)

/-- `body.strip_suffix('$')` step of `match_pattern`: whether the body
ends with `$`, and the body with that character removed. -/
def strip_dollar (body : List Char) : Bool × List Char :=
  if body.getLast? = some '$' then (true, body.dropLast) else (false, body)

/-- The `start_anchored` flag computed by `match_pattern`. -/
def is_start_anchored (pattern : List Char) : Bool :=
  (strip_caret pattern).1

/-- The `end_anchored` flag computed by `match_pattern`. -/
def is_end_anchored (pattern : List Char) : Bool :=
  (strip_dollar (strip_caret pattern).2).1

/-- The pattern body left after stripping both anchors in `match_pattern`. -/
def pattern_body (pattern : List Char) : List Char :=
  (strip_dollar (strip_caret pattern).2).2

/-- `fn match_pattern` from `src/main.rs`. -/
def match_pattern (input_line pattern : List Char) : Bool :=
  let input_chars := trim_end input_line
  let start_anchored := is_start_anchored pattern
  let end_anchored := is_end_anchored pattern
  let tokens := tokenize_pattern (pattern_body pattern)
  if start_anchored && end_anchored && tokens.isEmpty then input_chars.isEmpty
  else if start_anchored && tokens.isEmpty then input_chars.isEmpty
  else if end_anchored && tokens.isEmpty then input_chars.isEmpty
  else
    (if start_anchored then [0] else List.range (input_chars.length + 1)).any
      fun start_pos =>
        match match_tokens_at_position input_chars tokens start_pos with
        | some end_pos => if end_anchored then end_pos == input_chars.length else true
        | none => false

/-- A token is one of the four non-quantifier variants. -/
def atomic : PatternToken → Bool
  | PatternToken.Plus _ => false
  | PatternToken.Question _ => false
  | _ => true

/-- A token is well formed when any `Plus`/`Question` wraps an atom. -/
def wellFormed : PatternToken → Bool
  | PatternToken.Plus inner => atomic inner
  | PatternToken.Question inner => atomic inner
  | _ => true

example : tokenize_pattern "a+b?".toList =
    [PatternToken.Plus (PatternToken.Char 'a'), PatternToken.Question (PatternToken.Char 'b')] := by
  decide

example : tokenize_pattern "[^ab]c".toList =
    [PatternToken.CharGroup ['a', 'b'] true, PatternToken.Char 'c'] := by decide

example : match_pattern "aaa".toList "a+".toList = true := by decide

example : match_pattern "aaab".toList "a+$".toList = false := by decide

example : match_pattern "color".toList "colou?r".toList = true := by decide

example : match_pattern "colour".toList "colou?r".toList = true := by decide

example : match_pattern "colouur".toList "colou?r".toList = false := by decide

example : match_pattern "12345".toList ('^' :: '\\' :: 'd' :: '+' :: '$' :: []) = true := by decide

example : match_pattern "12a45".toList ('^' :: '\\' :: 'd' :: '+' :: '$' :: []) = false := by decide

example : match_pattern "banana".toList "[^xyz]".toList = true := by decide

example : match_pattern "xyz".toList "[^xyz]".toList = false := by decide

example : match_pattern "apple123".toList ('\\' :: 'd' :: []) = true := by decide

/-! ### General lemmas about `trim_end` -/

/-- Dropping a prefix by a predicate twice is the same as dropping it once. -/
theorem dropWhile_self_idem (p : Char → Bool) (l : List Char) :
    List.dropWhile p (List.dropWhile p l) = List.dropWhile p l := by
  induction l with
  | nil => rfl
  | cons a l ih =>
    by_cases h : p a = true
    · simp [List.dropWhile_cons, h, ih]
    · simp [List.dropWhile_cons, h]

/-- `trim_end` is idempotent. -/
theorem trim_end_idem (s : List Char) : trim_end (trim_end s) = trim_end s := by
  simp [trim_end, dropWhile_self_idem]

/-! ### Claims C1, C2, C3 and C10: trimming, the empty-token bypass, and
the anchored empty-body cases -/

/-- C1 counterexample: the claim predicts that trailing spaces are retained
as matchable characters, so that pattern `" $"` matches the input line
`" \n"`; the engine in fact reports false on that pair, because
`trim_end` removes the trailing space together with the newline. -/
theorem C1_counterexample : match_pattern [' ', '\n'] [' ', '$'] = false := by decide

/-- C1 (amended): for every input line, the character sequence the engine
matches against is the line with all trailing whitespace removed (Rust
`str::trim_end`, Unicode `White_Space`), so trailing spaces and tabs are
removed as well and are not matchable; in particular pattern `" $"`
against an input line ending in a space then a newline reports false. -/
theorem C1_trim_all_trailing_whitespace :
    (∀ input pattern, match_pattern input pattern = match_pattern (trim_end input) pattern) ∧
    match_pattern [' ', '\n'] [' ', '$'] = false := by
  constructor
  · intro input pattern
    simp only [match_pattern, trim_end_idem]
  · decide

/-- C2 counterexample: the claim predicts that the pattern `"^\"` (whose
body `"\"` is non-empty) skips the empty-body bypass and reports true for
every input line; the engine in fact reports false on the input `"a"`,
because the bypass is keyed on the token sequence being empty, and the
lone trailing backslash yields no token. -/
theorem C2_counterexample : match_pattern ['a'] ['^', '\\'] = false := by decide

/-- C2 (amended): the empty-body bypass applies exactly when the token
sequence produced from the body is empty (with an anchor present).  For
the start-anchored pattern `"^\"` the body is the non-empty string `"\"`,
whose lone trailing backslash is dropped to yield an empty token sequence;
the bypass therefore fires, the Matcher is never invoked, and the engine
reports true iff the trimmed input is empty. -/
theorem C2_backslash_body_bypass :
    tokenize_pattern ['\\'] = [] ∧
    ∀ input, match_pattern input ['^', '\\'] = (trim_end input).isEmpty :=
  ⟨rfl, fun _ => rfl⟩

/-- C3: for every pattern whose body after stripping anchors is the empty
string, with at least one anchor present, and every input line, the engine
reports true iff the trimmed input is the empty string. -/
theorem C3_empty_body_anchored (pattern input : List Char)
    (hbody : pattern_body pattern = [])
    (hanc : is_start_anchored pattern = true ∨ is_end_anchored pattern = true) :
    match_pattern input pattern = (trim_end input).isEmpty := by
  have htok : tokenize_pattern (pattern_body pattern) = [] := by rw [hbody]; rfl
  rcases hanc with h | h
  · simp [match_pattern, htok, h]
  · simp [match_pattern, htok, h]

/-- C3 witness: the pattern `"^$"` has empty body and both anchors, and
against the input line `"a\n"` the engine reports false, which is the
emptiness of the trimmed input `"a"`. -/
theorem C3_empty_body_anchored_witness :
    pattern_body ['^', '$'] = [] ∧ is_start_anchored ['^', '$'] = true ∧
    match_pattern ['a', '\n'] ['^', '$'] = (trim_end ['a', '\n']).isEmpty :=
  ⟨by decide, by decide,
    C3_empty_body_anchored ['^', '$'] ['a', '\n'] (by decide) (Or.inl (by decide))⟩

/-- C10: for every input line, matching against any un-anchored pattern
whose token sequence is empty reports true: the bypasses all require an
anchor, the Matcher's base case succeeds immediately at start offset 0,
and no anchor check restricts acceptance. -/
theorem C10_empty_tokens_unanchored (input pattern : List Char)
    (hsa : is_start_anchored pattern = false)
    (hea : is_end_anchored pattern = false)
    (htok : tokenize_pattern (pattern_body pattern) = []) :
    match_pattern input pattern = true := by
  simp only [match_pattern, hsa, hea, htok]
  refine List.any_eq_true.mpr ⟨0, ?_, rfl⟩
  simp

/-- C10 witness: the pattern consisting of a lone backslash is un-anchored
with an empty token sequence, and reports true on the input `"x"`. -/
theorem C10_empty_tokens_unanchored_witness :
    is_start_anchored ['\\'] = false ∧ is_end_anchored ['\\'] = false ∧
    tokenize_pattern (pattern_body ['\\']) = [] ∧
    match_pattern ['x'] ['\\'] = true :=
  ⟨by decide, by decide, by decide,
    C10_empty_tokens_unanchored ['x'] ['\\'] (by decide) (by decide) (by decide)⟩

/-! ### Claims C8 and C9: tokenizer degradation and the shape of
quantified tokens -/

/-- `tokT` on the empty remainder yields no tokens, for any fuel. -/
theorem tokT_nil (fuel : Nat) : tokT fuel [] = [] := by cases fuel <;> rfl

/-- `applyQuant` at the end of the pattern leaves the token unwrapped. -/
theorem applyQuant_nil (t : PatternToken) : applyQuant t [] = (t, []) := rfl

/-- A bracket class with no terminating `]` consumes every remaining
character as a member. -/
theorem readGroup_no_close : ∀ cs : List Char, ']' ∉ cs → readGroup cs = (cs, [])
  | [], _ => rfl
  | c :: rest, h => by
    simp only [List.mem_cons, not_or] at h
    simp [readGroup, Ne.symm h.1, readGroup_no_close rest h.2]

/-- C8: the tokenizer never raises an error: a trailing lone backslash
produces no token (for any fuel, so at any point of the scan), and a
bracket class whose closing `]` is never found consumes all remaining
characters of the pattern as members and terminates at end of string. -/
theorem C8_tokenizer_never_fails :
    (∀ fuel, tokT fuel ['\\'] = []) ∧
    (∀ rest : List Char, ']' ∉ rest →
      tokenize_pattern ('[' :: rest) =
        [PatternToken.CharGroup (groupNeg rest).2 (groupNeg rest).1]) := by
  constructor
  · intro fuel
    cases fuel <;> rfl
  · intro rest h
    have hng : ']' ∉ (groupNeg rest).2 := by
      unfold groupNeg
      split
      · exact fun hm => h (List.mem_of_mem_tail hm)
      · exact h
    have h1 : tokenize_pattern ('[' :: rest) =
        (applyQuant
            (PatternToken.CharGroup (readGroup (groupNeg rest).2).1 (groupNeg rest).1)
            (readGroup (groupNeg rest).2).2).1 ::
          tokT rest.length
            (applyQuant
              (PatternToken.CharGroup (readGroup (groupNeg rest).2).1 (groupNeg rest).1)
              (readGroup (groupNeg rest).2).2).2 := rfl
    rw [h1, readGroup_no_close _ hng]
    simp [applyQuant_nil, tokT_nil]

/-- C8 witness: the unterminated class `"[ab"` yields the single token
`CharGroup ['a', 'b'] false`. -/
theorem C8_tokenizer_never_fails_witness :
    (']' ∉ ['a', 'b']) ∧
    tokenize_pattern ['[', 'a', 'b'] = [PatternToken.CharGroup ['a', 'b'] false] :=
  ⟨by decide, C8_tokenizer_never_fails.2 ['a', 'b'] (by decide)⟩

/-- An atomic token is well formed. -/
theorem atomic_wellFormed : ∀ {t : PatternToken}, atomic t = true → wellFormed t = true := by
  intro t h
  cases t <;> simp_all [atomic, wellFormed]

/-- The escape table only produces atomic tokens. -/
theorem atomic_escToken (c : Char) : atomic (escToken c) = true := by
  unfold escToken
  split
  · rfl
  · split <;> rfl

/-- Wrapping an atomic token with the quantifier lookahead yields a
well-formed token. -/
theorem wellFormed_applyQuant (t : PatternToken) (cs : List Char) (h : atomic t = true) :
    wellFormed (applyQuant t cs).1 = true := by
  unfold applyQuant
  split
  · simpa [wellFormed] using h
  · split
    · simpa [wellFormed] using h
    · exact atomic_wellFormed h

/-- Every token produced by the fuelled tokenizer loop is well formed. -/
theorem tokT_wellFormed : ∀ (fuel : Nat) (cs : List Char), ∀ t ∈ tokT fuel cs, wellFormed t = true := by
  intro fuel
  induction fuel with
  | zero =>
    intro cs t ht
    cases cs <;> simp [tokT] at ht
  | succ fuel ih =>
    intro cs t ht
    match cs with
    | [] => simp [tokT] at ht
    | c :: rest =>
      simp only [tokT] at ht
      split at ht
      · split at ht
        · simp at ht
        · rcases List.mem_cons.mp ht with h | h
          · subst h; exact wellFormed_applyQuant _ _ (atomic_escToken _)
          · exact ih _ _ h
      · split at ht
        · rcases List.mem_cons.mp ht with h | h
          · subst h; exact wellFormed_applyQuant _ _ rfl
          · exact ih _ _ h
        · rcases List.mem_cons.mp ht with h | h
          · subst h; exact wellFormed_applyQuant _ _ rfl
          · exact ih _ _ h

/-- C9: for every pattern-body string, every `Plus` or `Question` token in
the tokenizer's output wraps one of the four atomic variants; a quantified
token nested inside another quantified token never occurs. -/
theorem C9_repeated_wraps_atom (cs : List Char) (inner : PatternToken)
    (h : PatternToken.Plus inner ∈ tokenize_pattern cs ∨
      PatternToken.Question inner ∈ tokenize_pattern cs) :
    atomic inner = true := by
  rcases h with h | h
  · simpa [wellFormed] using tokT_wellFormed cs.length cs _ h
  · simpa [wellFormed] using tokT_wellFormed cs.length cs _ h

/-- C9 witness: the pattern `"\d+"` produces the token `Plus Digit`, whose
inner token is atomic. -/
theorem C9_repeated_wraps_atom_witness :
    PatternToken.Plus PatternToken.Digit ∈ tokenize_pattern ['\\', 'd', '+'] ∧
    atomic PatternToken.Digit = true :=
  ⟨by decide, C9_repeated_wraps_atom ['\\', 'd', '+'] PatternToken.Digit (Or.inl (by decide))⟩

/-! ### Unfolding equations and search lemmas for the Matcher -/

/-- Base case of the Matcher: no tokens left succeeds at the current
position. -/
theorem backtrack_nil (input : List Char) (pos : Nat) :
    backtrack_match input [] pos = some pos := rfl

/-- Unfolding of the `Plus` arm of the Matcher. -/
theorem backtrack_plus (input : List Char) (inner : PatternToken)
    (rest : List PatternToken) (pos : Nat) :
    backtrack_match input (PatternToken.Plus inner :: rest) pos =
      if satAt input pos inner then
        tryFrom1 (backtrack_match input rest) pos
          (1 + run_from inner (input.drop (pos + 1)))
      else none := rfl

/-- Unfolding of the `Question` arm of the Matcher. -/
theorem backtrack_question (input : List Char) (inner : PatternToken)
    (rest : List PatternToken) (pos : Nat) :
    backtrack_match input (PatternToken.Question inner :: rest) pos =
      tryFrom0 (backtrack_match input rest) pos
        (if satAt input pos inner then 1 else 0) := rfl

/-- Unfolding of the non-quantified arm of the Matcher. -/
theorem backtrack_atomic (input : List Char) (t : PatternToken)
    (rest : List PatternToken) (pos : Nat) (h : atomic t = true) :
    backtrack_match input (t :: rest) pos =
      if satAt input pos t then backtrack_match input rest (pos + 1) else none := by
  cases t with
  | Plus inner => simp [atomic] at h
  | Question inner => simp [atomic] at h
  | Digit => rfl
  | Word => rfl
  | Char c => rfl
  | CharGroup m n => rfl

/-- `tryFrom1 f pos k` returns `some r` exactly when some count
`n ∈ [1, k]` succeeds with result `r` while every larger count in the
range fails (greedy-first order). -/
theorem tryFrom1_eq_some (f : Nat → Option Nat) (pos : Nat) :
    ∀ (k r : Nat), tryFrom1 f pos k = some r ↔
      ∃ n, 1 ≤ n ∧ n ≤ k ∧ f (pos + n) = some r ∧
        ∀ m, n < m → m ≤ k → f (pos + m) = none := by
  intro k
  induction k with
  | zero =>
    intro r
    constructor
    · intro h; simp [tryFrom1] at h
    · rintro ⟨n, h1, h2, -, -⟩; exact absurd (Nat.le_trans h1 h2) (by decide)
  | succ k ih =>
    intro r
    constructor
    · intro h
      have hstep : (match f (pos + (k + 1)) with
          | some r => some r
          | none => tryFrom1 f pos k) = some r := h
      rcases hf : f (pos + (k + 1)) with _ | r'
      · rw [hf] at hstep
        obtain ⟨n, h1, h2, h3, h4⟩ := (ih r).mp hstep
        refine ⟨n, h1, Nat.le_succ_of_le h2, h3, ?_⟩
        intro m hm1 hm2
        by_cases hmk : m ≤ k
        · exact h4 m hm1 hmk
        · have : m = k + 1 := by omega
          subst this; exact hf
      · rw [hf] at hstep
        cases hstep
        refine ⟨k + 1, by omega, Nat.le_refl _, hf, ?_⟩
        intro m hm1 hm2
        exact absurd hm1 (by omega)
    · rintro ⟨n, h1, h2, h3, h4⟩
      show (match f (pos + (k + 1)) with
          | some r => some r
          | none => tryFrom1 f pos k) = some r
      by_cases hn : n = k + 1
      · subst hn; rw [h3]
      · have hfk : f (pos + (k + 1)) = none := h4 (k + 1) (by omega) (by omega)
        rw [hfk]
        exact (ih r).mpr ⟨n, h1, by omega, h3, fun m hm1 hm2 => h4 m hm1 (by omega)⟩

/-- `tryFrom1 f pos k` fails exactly when every count in `[1, k]` fails. -/
theorem tryFrom1_eq_none (f : Nat → Option Nat) (pos : Nat) :
    ∀ k : Nat, tryFrom1 f pos k = none ↔
      ∀ n, 1 ≤ n → n ≤ k → f (pos + n) = none := by
  intro k
  induction k with
  | zero =>
    constructor
    · intro _ n h1 h2; exact absurd (Nat.le_trans h1 h2) (by decide)
    · intro _; rfl
  | succ k ih =>
    constructor
    · intro h
      have hstep : (match f (pos + (k + 1)) with
          | some r => some r
          | none => tryFrom1 f pos k) = none := h
      rcases hf : f (pos + (k + 1)) with _ | r'
      · rw [hf] at hstep
        intro n h1 h2
        by_cases hn : n = k + 1
        · subst hn; exact hf
        · exact (ih.mp hstep) n h1 (by omega)
      · rw [hf] at hstep; cases hstep
    · intro h
      have h1 : f (pos + (k + 1)) = none := h (k + 1) (by omega) (Nat.le_refl _)
      show (match f (pos + (k + 1)) with
          | some r => some r
          | none => tryFrom1 f pos k) = none
      rw [h1]
      exact ih.mpr fun n hn1 hn2 => h n hn1 (by omega)

/-- The guard fails on the empty input. -/
theorem satAt_nil (pos : Nat) (t : PatternToken) : satAt [] pos t = false := by
  cases pos <;> rfl

/-- `run_from t l` counts a maximal satisfying run: every position below
it satisfies `t` and the position right after it does not. -/
theorem run_from_spec (t : PatternToken) :
    ∀ l : List Char,
      (∀ i, i < run_from t l → satAt l i t = true) ∧
        satAt l (run_from t l) t = false := by
  intro l
  induction l with
  | nil =>
    exact ⟨fun i hi => absurd hi (Nat.not_lt_zero i), rfl⟩
  | cons c l ih =>
    by_cases hc : matches_token c t = true
    · have hr : run_from t (c :: l) = run_from t l + 1 := by simp [run_from, hc]
      constructor
      · intro i hi
        rw [hr] at hi
        match i with
        | 0 => exact hc
        | i + 1 => exact ih.1 i (by omega)
      · rw [hr]; exact ih.2
    · have hc' : matches_token c t = false := by simpa using hc
      have hr : run_from t (c :: l) = 0 := by simp [run_from, hc']
      constructor
      · intro i hi; rw [hr] at hi; exact absurd hi (Nat.not_lt_zero i)
      · rw [hr]; exact hc'

/-- The guard at `pos + i` is the guard at `i` of the dropped input. -/
theorem satAt_drop : ∀ (input : List Char) (pos i : Nat) (t : PatternToken),
    satAt (input.drop pos) i t = satAt input (pos + i) t
  | input, 0, i, t => by rw [List.drop_zero, Nat.zero_add]
  | [], pos + 1, i, t => by rw [List.drop_nil, satAt_nil, satAt_nil]
  | c :: l, pos + 1, i, t => by
    rw [List.drop_succ_cons, satAt_drop l pos i t]
    have harith : pos + 1 + i = (pos + i) + 1 := by omega
    rw [harith]
    rfl

/-- Input-level form of `run_from_spec`: `run_from` on the dropped input
is the maximal run starting at `pos`. -/
theorem run_maximal (input : List Char) (pos : Nat) (inner : PatternToken) :
    (∀ i, i < run_from inner (input.drop pos) → satAt input (pos + i) inner = true) ∧
      satAt input (pos + run_from inner (input.drop pos)) inner = false := by
  obtain ⟨h1, h2⟩ := run_from_spec inner (input.drop pos)
  exact ⟨fun i hi => satAt_drop input pos i inner ▸ h1 i hi,
    satAt_drop input pos _ inner ▸ h2⟩

/-- When the character at `pos` satisfies the token, the maximal run at
`pos` is one more than the maximal run at `pos + 1`. -/
theorem run_from_drop_succ : ∀ (input : List Char) (pos : Nat) (inner : PatternToken),
    satAt input pos inner = true →
    run_from inner (input.drop pos) = 1 + run_from inner (input.drop (pos + 1))
  | [], pos, inner, h => by rw [satAt_nil] at h; cases h
  | c :: l, 0, inner, h => by
    have hc : matches_token c inner = true := h
    simp [run_from, hc, Nat.add_comm]
  | c :: l, pos + 1, inner, h => by
    rw [List.drop_succ_cons, List.drop_succ_cons]
    exact run_from_drop_succ l pos inner h

/-! ### Claims C4 and C5: quantifier semantics of the Matcher -/

/-- C4: on a `Plus` token with inner atom `T`, the Matcher fails if the
character at `pos` does not exist or does not satisfy `T`; otherwise,
with `k` the maximal number of consecutive characters from `pos`
satisfying `T`, it succeeds with result `r` exactly when some count
`n ∈ [1, k]` makes the remaining tokens succeed at `pos + n` with result
`r` while all larger counts in `[1, k]` fail (greedy-first, backtracking
downward), and it fails exactly when every count in `[1, k]` fails. -/
theorem C4_plus_semantics (input : List Char) (inner : PatternToken)
    (rest : List PatternToken) (pos : Nat) :
    (satAt input pos inner = false →
      backtrack_match input (PatternToken.Plus inner :: rest) pos = none) ∧
    (satAt input pos inner = true →
      (∀ i, i < run_from inner (input.drop pos) → satAt input (pos + i) inner = true) ∧
      satAt input (pos + run_from inner (input.drop pos)) inner = false ∧
      (∀ r, backtrack_match input (PatternToken.Plus inner :: rest) pos = some r ↔
        ∃ n, 1 ≤ n ∧ n ≤ run_from inner (input.drop pos) ∧
          backtrack_match input rest (pos + n) = some r ∧
          ∀ m, n < m → m ≤ run_from inner (input.drop pos) →
            backtrack_match input rest (pos + m) = none) ∧
      (backtrack_match input (PatternToken.Plus inner :: rest) pos = none ↔
        ∀ n, 1 ≤ n → n ≤ run_from inner (input.drop pos) →
          backtrack_match input rest (pos + n) = none)) := by
  constructor
  · intro h
    simp [backtrack_plus, h]
  · intro h
    refine ⟨(run_maximal input pos inner).1, (run_maximal input pos inner).2, ?_, ?_⟩
    · intro r
      rw [backtrack_plus, if_pos h, ← run_from_drop_succ input pos inner h]
      exact tryFrom1_eq_some (backtrack_match input rest) pos _ r
    · rw [backtrack_plus, if_pos h, ← run_from_drop_succ input pos inner h]
      exact tryFrom1_eq_none (backtrack_match input rest) pos _

/-- C4 witness: pattern token `a+` alone against input `"aa"` greedily
consumes both characters. -/
theorem C4_plus_semantics_witness :
    satAt ['a', 'a'] 0 (PatternToken.Char 'a') = true ∧
    backtrack_match ['a', 'a'] [PatternToken.Plus (PatternToken.Char 'a')] 0 = some 2 := by
  refine ⟨by decide, ?_⟩
  have h := (C4_plus_semantics ['a', 'a'] (PatternToken.Char 'a') [] 0).2 (by decide)
  refine (h.2.2.1 2).mpr ⟨2, by decide, by decide, by decide, ?_⟩
  intro m hm1 hm2
  have hk : run_from (PatternToken.Char 'a') (List.drop 0 ['a', 'a']) = 2 := by decide
  rw [hk] at hm2
  exact absurd hm1 (by omega)

/-- C5: on a `Question` token with inner atom `T`, if the character at
`pos` satisfies `T` the Matcher first tries consuming one character and
recursing at `pos + 1`, falling back to recursing unchanged at `pos`;
if not, it recurses unchanged at `pos` only.  Consequently `"colou?r"`
matches `"color"` and `"colour"` and rejects `"colouur"`. -/
theorem C5_question_semantics (input : List Char) (inner : PatternToken)
    (rest : List PatternToken) (pos : Nat) :
    (satAt input pos inner = true →
      backtrack_match input (PatternToken.Question inner :: rest) pos =
        match backtrack_match input rest (pos + 1) with
        | some r => some r
        | none => backtrack_match input rest pos) ∧
    (satAt input pos inner = false →
      backtrack_match input (PatternToken.Question inner :: rest) pos =
        backtrack_match input rest pos) ∧
    match_pattern "color".toList "colou?r".toList = true ∧
    match_pattern "colour".toList "colou?r".toList = true ∧
    match_pattern "colouur".toList "colou?r".toList = false := by
  refine ⟨?_, ?_, by decide, by decide, by decide⟩
  · intro h
    rw [backtrack_question, h]
    rfl
  · intro h
    rw [backtrack_question, h]
    rfl

/-- C5 witness: a `Question` token whose inner atom matches the current
character first tries the one-character consumption. -/
theorem C5_question_semantics_witness :
    satAt ['a'] 0 (PatternToken.Char 'a') = true ∧
    backtrack_match ['a'] [PatternToken.Question (PatternToken.Char 'a')] 0 =
      match backtrack_match ['a'] ([] : List PatternToken) (0 + 1) with
      | some r => some r
      | none => backtrack_match ['a'] ([] : List PatternToken) 0 :=
  ⟨by decide, (C5_question_semantics ['a'] (PatternToken.Char 'a') [] 0).1 (by decide)⟩

/-! ### Claim C6: the driver's start-offset enumeration -/

/-- Provided none of the empty-token bypasses fires, `match_pattern` is
the start-offset loop: candidate offsets are `[0]` when start-anchored
and `0..=len` otherwise, each invoking the Matcher and applying the
end-anchor check. -/
theorem match_pattern_loop (input_line pattern : List Char)
    (h1 : (is_start_anchored pattern && is_end_anchored pattern &&
      (tokenize_pattern (pattern_body pattern)).isEmpty) = false)
    (h2 : (is_start_anchored pattern &&
      (tokenize_pattern (pattern_body pattern)).isEmpty) = false)
    (h3 : (is_end_anchored pattern &&
      (tokenize_pattern (pattern_body pattern)).isEmpty) = false) :
    match_pattern input_line pattern =
      (if is_start_anchored pattern then [0]
       else List.range ((trim_end input_line).length + 1)).any
        fun start_pos =>
          match match_tokens_at_position (trim_end input_line)
              (tokenize_pattern (pattern_body pattern)) start_pos with
          | some end_pos =>
            if is_end_anchored pattern then end_pos == (trim_end input_line).length
            else true
          | none => false := by
  simp only [match_pattern, h1, h2, h3, Bool.false_eq_true, if_false]

/-- C6: for every pattern with a non-empty token sequence and every input
line, the engine reports true iff some candidate start offset (only 0
when start-anchored, otherwise any offset in `0..=len`) makes the Matcher
succeed at token index 0 with an end offset that equals the trimmed
input's length whenever the pattern is end-anchored. -/
theorem C6_driver_enumeration (input_line pattern : List Char)
    (h : tokenize_pattern (pattern_body pattern) ≠ []) :
    match_pattern input_line pattern = true ↔
      ∃ start_pos ∈ (if is_start_anchored pattern then [0]
          else List.range ((trim_end input_line).length + 1)),
        ∃ end_pos, match_tokens_at_position (trim_end input_line)
            (tokenize_pattern (pattern_body pattern)) start_pos = some end_pos ∧
          (is_end_anchored pattern = true → end_pos = (trim_end input_line).length) := by
  have hie : (tokenize_pattern (pattern_body pattern)).isEmpty = false := by
    rcases htl : tokenize_pattern (pattern_body pattern) with _ | ⟨a, l⟩
    · exact absurd htl h
    · rfl
  rw [match_pattern_loop input_line pattern (by simp [hie]) (by simp [hie]) (by simp [hie])]
  rw [List.any_eq_true]
  constructor
  · rintro ⟨s, hs, hp⟩
    refine ⟨s, hs, ?_⟩
    rcases hm : match_tokens_at_position (trim_end input_line)
        (tokenize_pattern (pattern_body pattern)) s with _ | e
    · rw [hm] at hp; cases hp
    · rw [hm] at hp
      refine ⟨e, rfl, ?_⟩
      intro hea
      rw [hea] at hp
      simpa using hp
  · rintro ⟨s, hs, e, hm, hcond⟩
    refine ⟨s, hs, ?_⟩
    rw [hm]
    by_cases hea : is_end_anchored pattern = true
    · simp [hea, hcond hea]
    · have hea' : is_end_anchored pattern = false := by simpa using hea
      simp [hea']

/-- C6 witness: pattern `"a"` against input `"a"`: the single candidate
offset 0 makes the Matcher succeed with end offset 1, and with no end
anchor the engine accepts. -/
theorem C6_driver_enumeration_witness :
    tokenize_pattern (pattern_body ['a']) ≠ [] ∧ match_pattern ['a'] ['a'] = true := by
  refine ⟨by decide, ?_⟩
  refine (C6_driver_enumeration ['a'] ['a'] (by decide)).mpr ⟨0, ?_, 1, by decide, ?_⟩
  · decide
  · intro hea
    exact absurd hea (by decide)

/-! ### Claim C7: substring characterization for quantifier-free
un-anchored patterns -/

/-- On a quantifier-free token sequence the Matcher is a rigid pairwise
check: it succeeds exactly when it ends at `pos + tokens.length` and the
characters at `pos, pos + 1, …` satisfy the tokens pairwise in order. -/
theorem backtrack_atomic_chain (input : List Char) :
    ∀ tokens : List PatternToken, (∀ t ∈ tokens, atomic t = true) →
      ∀ pos e : Nat,
        (backtrack_match input tokens pos = some e ↔
          e = pos + tokens.length ∧
          List.Forall₂ (fun c t => matches_token c t = true)
            ((input.drop pos).take tokens.length) tokens) := by
  intro tokens
  induction tokens with
  | nil =>
    intro _ pos e
    rw [backtrack_nil]
    constructor
    · intro h
      injection h with h
      subst h
      refine ⟨(Nat.add_zero pos).symm, ?_⟩
      rw [List.length_nil, List.take_zero]
      exact List.Forall₂.nil
    · rintro ⟨he, -⟩
      rw [he, List.length_nil, Nat.add_zero]
  | cons t rest ih =>
    intro hat pos e
    have hatT : atomic t = true := hat t (List.mem_cons_self t rest)
    have hatR : ∀ u ∈ rest, atomic u = true := fun u hu => hat u (List.mem_cons_of_mem t hu)
    rw [backtrack_atomic input t rest pos hatT]
    rcases hg : input[pos]? with _ | c
    · have hsat : satAt input pos t = false := by simp [satAt, hg]
      have hlen : input.length ≤ pos := List.getElem?_eq_none_iff.mp hg
      have hdrop : input.drop pos = [] := by
        rw [List.drop_eq_nil_iff]
        exact hlen
      rw [hsat]
      simp [hdrop, List.forall₂_nil_left_iff]
    · obtain ⟨hlt, hget⟩ := List.getElem?_eq_some_iff.mp hg
      have hdrop : input.drop pos = c :: input.drop (pos + 1) := by
        rw [← List.getElem_cons_drop input pos hlt]
        rw [hget]
      by_cases hc : matches_token c t = true
      · have hsat : satAt input pos t = true := by simp [satAt, hg, hc]
        rw [hsat, if_pos rfl, ih hatR (pos + 1) e]
        simp only [List.length_cons, hdrop, List.take_succ_cons, List.forall₂_cons]
        constructor
        · rintro ⟨he, hf⟩; exact ⟨by omega, hc, hf⟩
        · rintro ⟨he, -, hf⟩; exact ⟨by omega, hf⟩
      · have hc' : matches_token c t = false := by simpa using hc
        have hsat : satAt input pos t = false := by simp [satAt, hg, hc']
        rw [hsat]
        simp only [List.length_cons, hdrop, List.take_succ_cons, List.forall₂_cons, hc']
        simp

/-- C7 counterexample: the pattern `" "` is un-anchored with the single
quantifier-free token `Literal ' '`, and the raw input line `" "`
contains the one-character substring `" "` satisfying it; yet the engine
reports false, because the trailing space is removed by trimming before
matching. -/
theorem C7_counterexample :
    is_start_anchored [' '] = false ∧ is_end_anchored [' '] = false ∧
    tokenize_pattern (pattern_body [' ']) = [PatternToken.Char ' '] ∧
    matches_token ' ' (PatternToken.Char ' ') = true ∧
    match_pattern [' '] [' '] = false :=
  ⟨by decide, by decide, by decide, by decide, by decide⟩

/-- C7 (amended): for every un-anchored pattern whose token sequence has
no quantified tokens and every input line, the engine reports true iff
some contiguous substring of the trimmed input (the line with trailing
whitespace removed), of length equal to the number of tokens, satisfies
the per-character predicates of the tokens pairwise in order. -/
theorem C7_substring_characterization (input_line pattern : List Char)
    (hsa : is_start_anchored pattern = false)
    (hea : is_end_anchored pattern = false)
    (hat : ∀ t ∈ tokenize_pattern (pattern_body pattern), atomic t = true) :
    match_pattern input_line pattern = true ↔
      ∃ mid l₁ l₂, l₁ ++ mid ++ l₂ = trim_end input_line ∧
        List.Forall₂ (fun c t => matches_token c t = true) mid
          (tokenize_pattern (pattern_body pattern)) := by
  rw [match_pattern_loop input_line pattern (by simp [hsa]) (by simp [hsa]) (by simp [hea])]
  simp only [hsa, hea, Bool.false_eq_true, if_false]
  rw [List.any_eq_true]
  constructor
  · rintro ⟨s, hs, hp⟩
    rcases hm : match_tokens_at_position (trim_end input_line)
        (tokenize_pattern (pattern_body pattern)) s with _ | e
    · rw [hm] at hp; cases hp
    · obtain ⟨-, hf⟩ := (backtrack_atomic_chain (trim_end input_line) _ hat s e).mp hm
      refine ⟨((trim_end input_line).drop s).take
          (tokenize_pattern (pattern_body pattern)).length,
        (trim_end input_line).take s,
        ((trim_end input_line).drop s).drop
          (tokenize_pattern (pattern_body pattern)).length, ?_, hf⟩
      rw [List.append_assoc, List.take_append_drop, List.take_append_drop]
  · rintro ⟨mid, l₁, l₂, hsplit, hf⟩
    have hlenmid : mid.length = (tokenize_pattern (pattern_body pattern)).length :=
      List.Forall₂.length_eq hf
    refine ⟨l₁.length, ?_, ?_⟩
    · rw [List.mem_range]
      have hlen : (trim_end input_line).length = l₁.length + (mid.length + l₂.length) := by
        rw [← hsplit, List.append_assoc, List.length_append, List.length_append]
      omega
    · have hdrop : (trim_end input_line).drop l₁.length = mid ++ l₂ := by
        rw [← hsplit, List.append_assoc, List.drop_left]
      have htake : ((trim_end input_line).drop l₁.length).take
          (tokenize_pattern (pattern_body pattern)).length = mid := by
        rw [hdrop, ← hlenmid, List.take_left]
      have hm : match_tokens_at_position (trim_end input_line)
          (tokenize_pattern (pattern_body pattern)) l₁.length =
          some (l₁.length + (tokenize_pattern (pattern_body pattern)).length) :=
        (backtrack_atomic_chain (trim_end input_line) _ hat l₁.length
          (l₁.length + (tokenize_pattern (pattern_body pattern)).length)).mpr
          ⟨rfl, by rw [htake]; exact hf⟩
      rw [hm]

/-- C7 witness: the un-anchored quantifier-free pattern `"ab"` matches
the input `"xab"` through its substring `"ab"`. -/
theorem C7_substring_characterization_witness :
    is_start_anchored ['a', 'b'] = false ∧ is_end_anchored ['a', 'b'] = false ∧
    match_pattern ['x', 'a', 'b'] ['a', 'b'] = true := by
  refine ⟨by decide, by decide, ?_⟩
  refine (C7_substring_characterization ['x', 'a', 'b'] ['a', 'b'] (by decide) (by decide)
      (by decide)).mpr ⟨['a', 'b'], ['x'], [], by decide, ?_⟩
  exact List.Forall₂.cons (by decide) (List.Forall₂.cons (by decide) List.Forall₂.nil)

end Grep
